import Mathlib

/-!
Shallow embedding of the `dhl` delivery library (src/lib.rs, src/recipients.rs,
src/depot.rs).  Filesystem paths are modelled as an absolute-flag plus a list of
already-normalized components; `IoResult` values are modelled as `Except Unit`;
the directory listing consumed by `Recipients::with_path` and the byte streams
consumed by `Depot::unpack` are passed in explicitly as data.
-/

namespace DHL

/-- A filesystem path (`std::path::Path`): an absolute-path flag and the list of
normal components.  Components are assumed normalized (no `.` entries, no empty
entries), matching what `Path::components` yields. -/
structure RPath where
  abs : Bool
  comps : List String
deriving DecidableEq, Repr

/-- `Path::parent`: drops the final component; `None` on an empty or root path. -/
def RPath.parent (p : RPath) : Option RPath :=
  match p.comps with
  | [] => none
  | _ :: _ => some ⟨p.abs, p.comps.dropLast⟩

/-- `Path::file_name`: the final component unless it is `..` (or the path is
empty/root). -/
def RPath.fileName (p : RPath) : Option String :=
  match p.comps.getLast? with
  | none => none
  | some c => if c = ".." then none else some c

/-- `Path::join` with a relative right-hand side: appends components. -/
def RPath.join (p : RPath) (more : List String) : RPath :=
  ⟨p.abs, p.comps ++ more⟩

/-- `PathBuf::with_file_name`: pops the final component when a file name is
present, then pushes the new one. -/
def RPath.withFileName (p : RPath) (f : String) : RPath :=
  match p.fileName with
  | some _ => ⟨p.abs, p.comps.dropLast ++ [f]⟩
  | none => ⟨p.abs, p.comps ++ [f]⟩

/-- `Path::strip_prefix`: the remainder of `p` after `base`, when `base` is a
component-wise prefix; the remainder is relative. -/
def RPath.stripPrefix (p base : RPath) : Option RPath :=
  if p.abs = base.abs ∧ base.comps.isPrefixOf p.comps then
    some ⟨false, p.comps.drop base.comps.length⟩
  else none

/-- `RecipientsError` from src/recipients.rs. -/
inductive RecipientsError
  | EnvError (name : String)
  | InvalidOutDir (out_dir : RPath)
deriving DecidableEq, Repr

deriving instance DecidableEq for Except

/-- `Address` from src/recipients.rs: the info stored per discovered library
file.  `last_modified` models `IoResult<SystemTime>` as `Except Unit Nat`;
the `AtomicBool` watch flag is a plain `Bool` (execution is single-threaded). -/
structure Address where
  file_name : String
  last_modified : Except Unit Nat
  is_watched : Bool
deriving DecidableEq, Repr

/-- `Address::is_newer`: when both modification times are known, `self`'s is
greater or equal; otherwise `true`. -/
def Address.is_newer (a b : Address) : Bool :=
  match a.last_modified, b.last_modified with
  | .ok x, .ok y => y ≤ x
  | _, _ => true

/-- `Address::watch`: returns whether this was the first watch and the address
with the flag set. -/
def Address.watch (a : Address) : Bool × Address :=
  (!a.is_watched, { a with is_watched := true })

/-- Suffix of a character list after the first occurrence of the (nonempty)
pattern `sep`; `none` when `sep` never occurs.  This is the second piece of
Rust's `s.splitn(2, sep)`. -/
def afterFirst (sep : List Char) : List Char → Option (List Char)
  | [] => none
  | c :: cs =>
    if sep.isPrefixOf (c :: cs) then some ((c :: cs).drop sep.length)
    else afterFirst sep cs

/-- Whether `sep` (nonempty) occurs as a contiguous sublist. -/
def hasSub (sep : List Char) : List Char → Bool
  | [] => false
  | c :: cs => sep.isPrefixOf (c :: cs) || hasSub sep cs

/-- The file-name filter inside `Recipients::with_path`: take the part after
the first occurrence of `"lib"`, require it to end with `".rlib"`, and key on
its prefix before the first `-` (the whole remainder when no `-` occurs,
matching `splitn(2, '-').nth(0)`). -/
def parseLibName (s : String) : Option String :=
  match afterFirst "lib".data s.data with
  | none => none
  | some rest =>
    if ".rlib".data.isSuffixOf rest then
      some ⟨rest.takeWhile (fun c => c ≠ '-')⟩
    else none

/-- First-match lookup in the address map (`HashMap::get`, modelled as an
association list whose keys are unique). -/
def lookupAddr : List (String × Address) → String → Option Address
  | [], _ => none
  | (k, a) :: rest, key => if k = key then some a else lookupAddr rest key

/-- In-place replacement of the value at `key` (`OccupiedEntry::insert`). -/
def replaceAddr : List (String × Address) → String → Address → List (String × Address)
  | [], _, _ => []
  | (k, a) :: rest, key, v =>
    if k = key then (k, v) :: rest else (k, a) :: replaceAddr rest key v

/-- The `addresses.entry(..)` match inside `Recipients::with_path`: vacant keys
insert; on collision the existing address survives when `existing.is_newer
incoming`, otherwise the incoming one replaces it. -/
def insertAddr (m : List (String × Address)) (key : String) (v : Address) :
    List (String × Address) :=
  match lookupAddr m key with
  | none => m ++ [(key, v)]
  | some old => if old.is_newer v then m else replaceAddr m key v

/-- A `read_dir` entry: the file name (`Except.error` models a non-UTF-8
`OsString`, whose `to_str` fails) and `metadata().and_then(modified)`. -/
structure DirEntry where
  file_name : Except Unit String
  modified : Except Unit Nat
deriving DecidableEq, Repr

/-- Outcome of code that may `unwrap` a failing `IoResult`: either a panic or a
value. -/
inductive PanicOr (α : Type)
  | panic
  | ok (a : α)
deriving DecidableEq, Repr

/-- The scan loop of `Recipients::with_path`: each listing element is
`unwrap`ped (an `Err` entry panics); names that fail `parseLibName` are
skipped; accepted names insert an `Address` under the parsed key. -/
def scanEntries (m : List (String × Address)) :
    List (Except Unit DirEntry) → PanicOr (List (String × Address))
  | [] => .ok m
  | .error _ :: _ => .panic
  | .ok e :: rest =>
    match e.file_name with
    | .error _ => scanEntries m rest
    | .ok name =>
      match parseLibName name with
      | none => scanEntries m rest
      | some key => scanEntries (insertAddr m key ⟨name, e.modified, false⟩) rest

/-- `Recipients` from src/recipients.rs. -/
structure Recipients where
  deps_dir : RPath
  relative_deps_dir : Option RPath
  addresses : List (String × Address)
deriving DecidableEq, Repr

/-- `Recipients::with_path`: computes `relative_deps_dir` via `strip_prefix`
and scans the deps directory.  The listing is passed in as data;
`read_dir().unwrap()` and the per-entry `unwrap`s panic on `Err`. -/
def Recipients.with_path (deps_dir manifest_dir : RPath)
    (dir : Except Unit (List (Except Unit DirEntry))) : PanicOr Recipients :=
  match dir with
  | .error _ => .panic
  | .ok files =>
    match scanEntries [] files with
    | .panic => .panic
    | .ok addresses => .ok ⟨deps_dir, deps_dir.stripPrefix manifest_dir, addresses⟩

/-- `Recipients::get_deps_dir`: the third ancestor of `out_dir` joined with
`"deps"`, or `InvalidOutDir`. -/
def Recipients.get_deps_dir (out_dir : RPath) : Except RecipientsError RPath :=
  match (out_dir.parent.bind RPath.parent).bind RPath.parent with
  | none => .error (.InvalidOutDir out_dir)
  | some d => .ok (d.join ["deps"])

/-- `Recipients::with_env`. -/
def Recipients.with_env (out_dir manifest_dir : RPath)
    (dir : Except Unit (List (Except Unit DirEntry))) :
    Except RecipientsError (PanicOr Recipients) :=
  match Recipients.get_deps_dir out_dir with
  | .error e => .error e
  | .ok deps_dir => .ok (Recipients.with_path deps_dir manifest_dir dir)

/-- `Recipients::new`: reads `OUT_DIR` and `CARGO_MANIFEST_DIR` from the
environment (`var_os_or`, yielding `EnvError` on a missing variable) and
defers to `with_env`. -/
def Recipients.new (env : String → Option RPath)
    (dir : Except Unit (List (Except Unit DirEntry))) :
    Except RecipientsError (PanicOr Recipients) :=
  match env "OUT_DIR" with
  | none => .error (.EnvError "OUT_DIR")
  | some out_dir =>
    match env "CARGO_MANIFEST_DIR" with
    | none => .error (.EnvError "CARGO_MANIFEST_DIR")
    | some manifest_dir => Recipients.with_env out_dir manifest_dir dir

/-- `name.replace('-', "_")` in `Recipients::get`. -/
def normalize (s : String) : String :=
  ⟨s.data.map (fun c => if c = '-' then '_' else c)⟩

/-- Sets the watch flag of the address stored under `key` (the effect of
`library.watch()` on the map). -/
def setWatched : List (String × Address) → String → List (String × Address)
  | [], _ => []
  | (k, a) :: rest, key =>
    if k = key then (k, { a with is_watched := true }) :: rest
    else (k, a) :: setWatched rest key

/-- `Recipients::get`: normalizes the name, looks up the address, returns
`deps_dir` joined with its file name.  The returned triple is (result, the
recipients with the watch flag update applied, whether the change-tracking
signal fired on this call). -/
def Recipients.get (r : Recipients) (name : String) :
    Option RPath × Recipients × Bool :=
  let key := normalize name
  match lookupAddr r.addresses key with
  | none => (none, r, false)
  | some library =>
    let dest := r.deps_dir.join [library.file_name]
    let fired := (Address.watch library).1
    (some dest, { r with addresses := setWatched r.addresses key }, fired)

/-- `DEFAULT_EXPORT` from src/depot.rs. -/
def DEFAULT_EXPORT : String := "export.rlib"

/-- `ArchiveError` from src/depot.rs; `io::Error` payloads are dropped. -/
inductive ArchiveError
  | GzipError (crate_name : String)
  | TarError (crate_name : String)
  | TarPathError (crate_name : String)
  | TarFileNameError (crate_name : String) (path : RPath)
deriving DecidableEq, Repr

/-- One tar entry as the unpack loop observes it: whether reading the entry
from the stream fails (`TarError`), whether decoding its path fails
(`TarPathError`), the decoded relative path, its byte content, and whether
`entry.unpack` itself fails (`TarError`). -/
structure TarEntryData where
  readErr : Bool
  pathErr : Bool
  path : RPath
  content : String
  writeErr : Bool
deriving DecidableEq, Repr

/-- What a source byte stream decodes to: a gzip-decoder construction failure,
a tar-reader failure, or the sequence of archive entries. -/
inductive SourceContent
  | gzipErr
  | tarErr
  | archive (entries : List TarEntryData)
deriving DecidableEq, Repr

/-- The entry loop of `Depot::unpack`: entries are processed in archive order;
the export entry lands on `dest` itself, every other entry on
`dest.with_file_name(its file name)`; the first failure aborts the loop.
Returns the writes performed (destination, content) and the error, if any. -/
def unpackEntries (crate_name : String) (dest : RPath) :
    List TarEntryData → List (RPath × String) × Option ArchiveError
  | [] => ([], none)
  | e :: rest =>
    if e.readErr then ([], some (.TarError crate_name))
    else if e.pathErr then ([], some (.TarPathError crate_name))
    else
      match e.path.fileName with
      | none => ([], some (.TarFileNameError crate_name e.path))
      | some file_name =>
        let dest2 := if file_name = DEFAULT_EXPORT then dest
                     else dest.withFileName file_name
        if e.writeErr then ([], some (.TarError crate_name))
        else
          let (ws, err) := unpackEntries crate_name dest rest
          ((dest2, e.content) :: ws, err)

namespace Depot

/-- `Depot::unpack`: gzip then tar decoding failures surface before the entry
loop. -/
def unpack (crate_name : String) (src : SourceContent) (dest : RPath) :
    List (RPath × String) × Option ArchiveError :=
  match src with
  | .gzipErr => ([], some (.GzipError crate_name))
  | .tarErr => ([], some (.TarError crate_name))
  | .archive entries => unpackEntries crate_name dest entries

end Depot

/-- `FileData` from src/manifest.rs. -/
structure FileData where
  source : RPath
deriving DecidableEq, Repr

/-- `PackageData` from src/manifest.rs (the `Url` variant is feature-gated
behind `reqwest` and not modelled). -/
inductive PackageData
  | file (d : FileData)
deriving DecidableEq, Repr

/-- `Package` from src/manifest.rs. -/
structure Package where
  version : Option String
  data : PackageData
deriving DecidableEq, Repr

/-- `Packages` from src/manifest.rs; the `HashMap` is modelled as the list of
pairs in iteration order. -/
structure Packages where
  packages : List (String × Package)
deriving DecidableEq, Repr

/-- `DepotError` from src/depot.rs (without the feature-gated TLS/HTTP
variants); `io::Error` payloads are dropped. -/
inductive DepotError
  | FileError (crate_name : String) (source : FileData)
  | MissingLibraryFile (crate_name : String)
  | ArchiveError (err : ArchiveError)
deriving DecidableEq, Repr

/-- The filesystem as the depot reads it: maps a source path to what opening
and streaming that file yields (`none` models a failing `File::open`). -/
def FS : Type := RPath → Option SourceContent

namespace Depot

/-- `Depot::deliver_helper` for a file source: open the source (failure →
`FileError` with the crate name and source) and unpack the stream onto
`dest`.  Returns the writes performed and the error, if any. -/
def deliver_helper (fs : FS) (crate_name : String) (package : Package)
    (dest : RPath) : List (RPath × String) × Option DepotError :=
  match package.data with
  | .file source =>
    match fs source.source with
    | none => ([], some (.FileError crate_name source))
    | some content =>
      let (ws, err) := unpack crate_name content dest
      (ws, err.map .ArchiveError)

/-- The loop of `Depot::deliver`: for each package in order, resolve the
destination via `recipients.get` (absent → `MissingLibraryFile`, aborting
immediately) and run `deliver_helper`; the first error aborts.  Returns the
writes performed, the recipients with watch-flag updates applied, and the
result. -/
def deliverLoop (fs : FS) (recipients : Recipients) :
    List (String × Package) →
    List (RPath × String) × Recipients × Except DepotError Unit
  | [] => ([], recipients, .ok ())
  | (crate_name, package) :: rest =>
    match Recipients.get recipients crate_name with
    | (none, r1, _) => ([], r1, .error (.MissingLibraryFile crate_name))
    | (some dest, r1, _) =>
      match deliver_helper fs crate_name package dest with
      | (ws, some e) => (ws, r1, .error e)
      | (ws, none) =>
        let (ws2, r2, res) := deliverLoop fs r1 rest
        (ws ++ ws2, r2, res)

/-- `Depot::deliver`. -/
def deliver (fs : FS) (recipients : Recipients) (packages : Packages) :
    List (RPath × String) × Recipients × Except DepotError Unit :=
  deliverLoop fs recipients packages.packages

end Depot

/-- The query transformation named by the spec: `NAME` with underscores
replaced by hyphens. -/
def hyphenate (s : String) : String :=
  ⟨s.data.map (fun c => if c = '_' then '-' else c)⟩

lemma parent_eq_of_ne_nil (b : Bool) (cs : List String) (h : cs ≠ []) :
    RPath.parent ⟨b, cs⟩ = some ⟨b, cs.dropLast⟩ := by
  cases cs with
  | nil => exact absurd rfl h
  | cons c cs => rfl

lemma lookupAddr_setWatched (m : List (String × Address)) (k key : String) :
    lookupAddr (setWatched m k) key =
      if key = k then
        (lookupAddr m key).map (fun a => { a with is_watched := true })
      else lookupAddr m key := by
  induction m with
  | nil => simp [setWatched, lookupAddr]
  | cons hd tl ih =>
    obtain ⟨k', a⟩ := hd
    by_cases h1 : k' = k
    · subst h1
      by_cases h2 : key = k'
      · subst h2
        simp [setWatched, lookupAddr]
      · have h2' : ¬(k' = key) := fun h => h2 h.symm
        simp [setWatched, lookupAddr, h2, h2']
    · by_cases h2 : k' = key
      · subst h2
        simp [setWatched, lookupAddr, h1]
      · simp [setWatched, lookupAddr, h1, h2, ih]

lemma get_fst (r : Recipients) (name : String) :
    (Recipients.get r name).1 =
      (lookupAddr r.addresses (normalize name)).map
        (fun a => r.deps_dir.join [a.file_name]) := by
  unfold Recipients.get
  cases h : lookupAddr r.addresses (normalize name) <;> simp [h]

lemma get_snd_deps (r : Recipients) (name : String) :
    (Recipients.get r name).2.1.deps_dir = r.deps_dir := by
  unfold Recipients.get
  cases h : lookupAddr r.addresses (normalize name) <;> simp [h]

lemma get_snd_addresses (r : Recipients) (name : String) :
    (Recipients.get r name).2.1.addresses =
      match lookupAddr r.addresses (normalize name) with
      | none => r.addresses
      | some _ => setWatched r.addresses (normalize name) := by
  unfold Recipients.get
  cases h : lookupAddr r.addresses (normalize name) <;> simp [h]

/-- C10: the destination returned by `Recipients::get` is stable: the
watch-flag mutation performed by an earlier `get` call (on any name) never
changes the `Option` value or the path a later `get` returns. -/
theorem C10_get_value_stable (r : Recipients) (n1 n2 : String) :
    (Recipients.get (Recipients.get r n1).2.1 n2).1 = (Recipients.get r n2).1 := by
  rw [get_fst, get_fst, get_snd_deps, get_snd_addresses]
  cases h1 : lookupAddr r.addresses (normalize n1)
  · rfl
  · rw [lookupAddr_setWatched]
    by_cases h : normalize n2 = normalize n1
    · rw [if_pos h, h]
      cases lookupAddr r.addresses (normalize n1) <;> rfl
    · rw [if_neg h]

/-- C6: `get_deps_dir` returns the third ancestor of `out_dir` joined with
`"deps"` when three ancestors exist (equivalently, when `out_dir` has at
least three components), and fails with `InvalidOutDir` otherwise. -/
theorem C6_get_deps_dir (p : RPath) :
    (3 ≤ p.comps.length →
      (p.parent.bind RPath.parent).bind RPath.parent =
          some ⟨p.abs, p.comps.dropLast.dropLast.dropLast⟩ ∧
      Recipients.get_deps_dir p =
          .ok (RPath.join ⟨p.abs, p.comps.dropLast.dropLast.dropLast⟩ ["deps"]))
    ∧ (p.comps.length < 3 →
      Recipients.get_deps_dir p = .error (.InvalidOutDir p)) := by
  obtain ⟨b, cs⟩ := p
  constructor
  · intro h3
    have h3 : 3 ≤ cs.length := h3
    have h1 : cs ≠ [] := by
      intro he; rw [he] at h3; simp at h3
    have e1 : RPath.parent ⟨b, cs⟩ = some ⟨b, cs.dropLast⟩ :=
      parent_eq_of_ne_nil b cs h1
    have h2 : cs.dropLast ≠ [] := by
      have hl : cs.dropLast.length = cs.length - 1 := List.length_dropLast cs
      intro he; rw [he] at hl; simp at hl; omega
    have e2 : RPath.parent ⟨b, cs.dropLast⟩ = some ⟨b, cs.dropLast.dropLast⟩ :=
      parent_eq_of_ne_nil b cs.dropLast h2
    have h3' : cs.dropLast.dropLast ≠ [] := by
      have ha : cs.dropLast.length = cs.length - 1 := List.length_dropLast cs
      have hb : cs.dropLast.dropLast.length = cs.dropLast.length - 1 :=
        List.length_dropLast cs.dropLast
      intro he; rw [he] at hb; simp at hb; omega
    have e3 : RPath.parent ⟨b, cs.dropLast.dropLast⟩ =
        some ⟨b, cs.dropLast.dropLast.dropLast⟩ :=
      parent_eq_of_ne_nil b cs.dropLast.dropLast h3'
    have echain : ((RPath.parent ⟨b, cs⟩).bind RPath.parent).bind RPath.parent =
        some ⟨b, cs.dropLast.dropLast.dropLast⟩ := by
      rw [e1]
      show (RPath.parent ⟨b, cs.dropLast⟩).bind RPath.parent = _
      rw [e2]
      show RPath.parent ⟨b, cs.dropLast.dropLast⟩ = _
      exact e3
    refine ⟨echain, ?_⟩
    unfold Recipients.get_deps_dir
    rw [echain]
  · intro hlt
    have hlt : cs.length < 3 := hlt
    rcases cs with _ | ⟨a, _ | ⟨a2, _ | ⟨a3, t⟩⟩⟩
    · rfl
    · rfl
    · rfl
    · simp at hlt; omega

/-- C6 witness: a four-component path resolves to its third ancestor joined
with `"deps"`, and a two-component path fails with `InvalidOutDir`. -/
theorem C6_witness :
    ((⟨false, ["r", "build", "pkg", "out"]⟩ : RPath).parent.bind
        RPath.parent).bind RPath.parent = some ⟨false, ["r"]⟩ ∧
    Recipients.get_deps_dir ⟨false, ["r", "build", "pkg", "out"]⟩ =
      .ok ⟨false, ["r", "deps"]⟩ ∧
    Recipients.get_deps_dir ⟨true, ["a", "b"]⟩ =
      .error (.InvalidOutDir ⟨true, ["a", "b"]⟩) := by
  have h := (C6_get_deps_dir ⟨false, ["r", "build", "pkg", "out"]⟩).1 (by decide)
  exact ⟨h.1, h.2, (C6_get_deps_dir ⟨true, ["a", "b"]⟩).2 (by decide)⟩

/-- C5: for a key produced by the placeholder-name parser (hence free of
hyphens), `get` applied to the key and `get` applied to the key with
underscores replaced by hyphens return the identical destination, because
`get` first maps every hyphen of the queried name to an underscore. -/
theorem C5_hyphen_agnostic (r : Recipients) (s k : String)
    (h : parseLibName s = some k) :
    (Recipients.get r k).1 = (Recipients.get r (hyphenate k)).1 := by
  have hk : ∀ c ∈ k.data, c ≠ '-' := by
    unfold parseLibName at h
    split at h
    · cases h
    · split at h
      · injection h with h
        subst h
        intro c hc
        have := List.mem_takeWhile_imp hc
        simpa using this
      · cases h
  have hnorm : normalize (hyphenate k) = normalize k := by
    unfold normalize hyphenate
    apply congrArg String.mk
    rw [List.map_map]
    apply List.map_congr_left
    intro c hc
    have hc' := hk c hc
    by_cases h_ : c = '_' <;> simp [h_, Function.comp, hc']
  rw [get_fst, get_fst, hnorm]

/-- C5 witness: on a concrete snapshot holding `libfoo_bar-12.rlib`, querying
`foo_bar` and `foo-bar` return the same destination. -/
theorem C5_witness :
    (Recipients.get
        ⟨⟨false, ["deps"]⟩, none, [("foo_bar", ⟨"libfoo_bar-12.rlib", .ok 0, false⟩)]⟩
        "foo_bar").1 =
    (Recipients.get
        ⟨⟨false, ["deps"]⟩, none, [("foo_bar", ⟨"libfoo_bar-12.rlib", .ok 0, false⟩)]⟩
        (hyphenate "foo_bar")).1 :=
  C5_hyphen_agnostic _ "libfoo_bar-12.rlib" "foo_bar" (by decide)

lemma lookupAddr_replaceAddr (m : List (String × Address)) (key : String)
    (v old : Address) (h : lookupAddr m key = some old) :
    lookupAddr (replaceAddr m key v) key = some v := by
  induction m with
  | nil => cases h
  | cons hd tl ih =>
    obtain ⟨k', a⟩ := hd
    by_cases hk : k' = key
    · simp [replaceAddr, lookupAddr, hk]
    · simp only [replaceAddr, lookupAddr, if_neg hk] at h ⊢
      exact ih h

/-- C2 (amended): on a key collision during construction, when both
modification times are known the address with the greater-or-equal timestamp
survives (a tie keeps the existing entry); when either timestamp is unknown
the existing entry survives and the incoming candidate is discarded. -/
theorem C2_collision_policy (m : List (String × Address)) (key : String)
    (old inc : Address) (h : lookupAddr m key = some old) :
    lookupAddr (insertAddr m key inc) key =
      some (match old.last_modified, inc.last_modified with
            | .ok a, .ok b => if a ≥ b then old else inc
            | _, _ => old) := by
  unfold insertAddr Address.is_newer
  simp only [h]
  cases hol : old.last_modified with
  | error u => simp only [hol]; simp [h]
  | ok a =>
    cases hin : inc.last_modified with
    | error u => simp only [hol, hin]; simp [h]
    | ok b =>
      simp only [hol, hin]
      by_cases hba : b ≤ a
      · simp [hba, h, ge_iff_le]
      · simp [hba, h, ge_iff_le, lookupAddr_replaceAddr m key inc old h]

/-- C2 witness: with both timestamps known and the incoming entry strictly
newer, the incoming address survives. -/
theorem C2_witness :
    lookupAddr (insertAddr [("foo", ⟨"libfoo-1.rlib", .ok 7, false⟩)] "foo"
        ⟨"libfoo-2.rlib", .ok 9, false⟩) "foo" =
      some ⟨"libfoo-2.rlib", .ok 9, false⟩ := by
  have h := C2_collision_policy [("foo", ⟨"libfoo-1.rlib", .ok 7, false⟩)] "foo"
    ⟨"libfoo-1.rlib", .ok 7, false⟩ ⟨"libfoo-2.rlib", .ok 9, false⟩ (by decide)
  simpa using h

/-- C2 counterexample: the claim predicts that an incoming candidate replaces
an existing entry whose timestamp is unknown; the code keeps the existing
entry.  Scanning `libfoo-1.rlib` (modification time unknown) and then
`libfoo-2.rlib` (known) leaves the first address in the index, and the
collision step discards the incoming one. -/
theorem C2_counterexample :
    Recipients.with_path ⟨false, ["deps"]⟩ ⟨false, []⟩
        (.ok [.ok ⟨.ok "libfoo-1.rlib", .error ()⟩,
              .ok ⟨.ok "libfoo-2.rlib", .ok 5⟩]) =
      .ok ⟨⟨false, ["deps"]⟩, some ⟨false, ["deps"]⟩,
           [("foo", ⟨"libfoo-1.rlib", .error (), false⟩)]⟩ ∧
    insertAddr [("foo", ⟨"libfoo-1.rlib", .error (), false⟩)] "foo"
        ⟨"libfoo-2.rlib", .ok 5, false⟩ =
      [("foo", ⟨"libfoo-1.rlib", .error (), false⟩)] := by
  constructor
  · rfl
  · rfl

lemma lookupAddr_mem {m : List (String × Address)} {key : String} {a : Address}
    (h : lookupAddr m key = some a) : (key, a) ∈ m := by
  induction m with
  | nil => cases h
  | cons hd tl ih =>
    obtain ⟨k', a'⟩ := hd
    by_cases hk : k' = key
    · subst hk
      simp only [lookupAddr, if_pos rfl] at h
      injection h with h
      subst h
      exact List.mem_cons_self _ _
    · simp only [lookupAddr, if_neg hk] at h
      exact List.mem_cons_of_mem _ (ih h)

lemma mem_replaceAddr {m : List (String × Address)} {key : String} {v : Address}
    {p : String × Address} (hp : p ∈ replaceAddr m key v) : p ∈ m ∨ p.2 = v := by
  induction m with
  | nil => simp [replaceAddr] at hp
  | cons hd tl ih =>
    obtain ⟨k', a⟩ := hd
    by_cases hk : k' = key
    · simp only [replaceAddr, if_pos hk] at hp
      rcases List.mem_cons.mp hp with rfl | hp
      · exact Or.inr rfl
      · exact Or.inl (List.mem_cons_of_mem _ hp)
    · simp only [replaceAddr, if_neg hk] at hp
      rcases List.mem_cons.mp hp with rfl | hp
      · exact Or.inl (List.mem_cons_self _ _)
      · rcases ih hp with h | h
        · exact Or.inl (List.mem_cons_of_mem _ h)
        · exact Or.inr h

lemma mem_insertAddr {m : List (String × Address)} {key : String} {v : Address}
    {p : String × Address} (hp : p ∈ insertAddr m key v) : p ∈ m ∨ p.2 = v := by
  unfold insertAddr at hp
  cases h : lookupAddr m key with
  | none =>
    simp only [h] at hp
    rcases List.mem_append.mp hp with hp | hp
    · exact Or.inl hp
    · rcases List.mem_singleton.mp hp with rfl
      exact Or.inr rfl
  | some old =>
    simp only [h] at hp
    by_cases hn : old.is_newer v
    · rw [if_pos hn] at hp
      exact Or.inl hp
    · rw [if_neg hn] at hp
      exact mem_replaceAddr hp

lemma scanEntries_unwatched (l : List (Except Unit DirEntry)) :
    ∀ m m', scanEntries m l = .ok m' →
      (∀ p ∈ m, p.2.is_watched = false) → ∀ p ∈ m', p.2.is_watched = false := by
  induction l with
  | nil =>
    intro m m' h hm
    simp only [scanEntries] at h
    injection h with h
    subst h
    exact hm
  | cons hd tl ih =>
    intro m m' h hm
    cases hd with
    | error u => simp [scanEntries] at h
    | ok e =>
      simp only [scanEntries] at h
      cases hre : e.file_name with
      | error u =>
        simp only [hre] at h
        exact ih m m' h hm
      | ok name =>
        simp only [hre] at h
        cases hp : parseLibName name with
        | none =>
          simp only [hp] at h
          exact ih m m' h hm
        | some key =>
          simp only [hp] at h
          refine ih _ m' h ?_
          intro p hpm
          rcases mem_insertAddr hpm with hpm | hpv
          · exact hm p hpm
          · rw [hpv]

lemma get_fired (r : Recipients) (name : String) :
    (Recipients.get r name).2.2 =
      match lookupAddr r.addresses (normalize name) with
      | none => false
      | some a => !a.is_watched := by
  unfold Recipients.get
  cases h : lookupAddr r.addresses (normalize name) <;> simp [h, Address.watch]

lemma with_path_ok (deps md : RPath) (l : List (Except Unit DirEntry)) :
    Recipients.with_path deps md (.ok l) =
      match scanEntries [] l with
      | .panic => .panic
      | .ok addresses => .ok ⟨deps, deps.stripPrefix md, addresses⟩ := rfl

/-- C4: the change-tracking signal fires on exactly the first `get` call that
resolves a given address and never again: the signal equals the negation of
the stored watch flag, the flag is true after the call, a repeated call does
not fire, and every address produced by construction starts unwatched. -/
theorem C4_watch_once :
    (∀ (r : Recipients) (name : String) (a : Address),
        lookupAddr r.addresses (normalize name) = some a →
          (Recipients.get r name).2.2 = !a.is_watched ∧
          lookupAddr (Recipients.get r name).2.1.addresses (normalize name) =
            some { a with is_watched := true } ∧
          (Recipients.get (Recipients.get r name).2.1 name).2.2 = false)
    ∧ (∀ (deps md : RPath) (l : List (Except Unit DirEntry)) (r : Recipients)
          (k : String) (a : Address),
        Recipients.with_path deps md (.ok l) = .ok r →
        lookupAddr r.addresses k = some a → a.is_watched = false) := by
  constructor
  · intro r name a h
    have haddr : (Recipients.get r name).2.1.addresses =
        setWatched r.addresses (normalize name) := by
      rw [get_snd_addresses, h]
    have h2 : lookupAddr (Recipients.get r name).2.1.addresses (normalize name) =
        some { a with is_watched := true } := by
      rw [haddr, lookupAddr_setWatched, if_pos rfl, h]
      rfl
    refine ⟨?_, h2, ?_⟩
    · simp [get_fired, h]
    · simp [get_fired, h2]
  · intro deps md l r k a hwp hla
    rw [with_path_ok] at hwp
    cases hs : scanEntries [] l with
    | panic =>
      simp only [hs] at hwp
      exact absurd hwp (by simp)
    | ok addresses =>
      simp only [hs] at hwp
      injection hwp with hwp
      subst hwp
      exact scanEntries_unwatched l [] addresses hs (by simp) (k, a)
        (lookupAddr_mem hla)

/-- C4 witness: on a one-address snapshot, the first `get` fires the signal,
leaves the flag set, a second `get` does not fire, and the constructed
address starts unwatched. -/
theorem C4_witness :
    ((Recipients.get
          ⟨⟨false, ["deps"]⟩, none, [("foo", ⟨"libfoo-1.rlib", .ok 0, false⟩)]⟩
          "foo").2.2 = !false ∧
      lookupAddr (Recipients.get
          ⟨⟨false, ["deps"]⟩, none, [("foo", ⟨"libfoo-1.rlib", .ok 0, false⟩)]⟩
          "foo").2.1.addresses (normalize "foo") =
        some ⟨"libfoo-1.rlib", .ok 0, true⟩ ∧
      (Recipients.get (Recipients.get
          ⟨⟨false, ["deps"]⟩, none, [("foo", ⟨"libfoo-1.rlib", .ok 0, false⟩)]⟩
          "foo").2.1 "foo").2.2 = false) ∧
    (⟨"libfoo-1.rlib", .ok 0, false⟩ : Address).is_watched = false := by
  refine ⟨C4_watch_once.1
      ⟨⟨false, ["deps"]⟩, none, [("foo", ⟨"libfoo-1.rlib", .ok 0, false⟩)]⟩
      "foo" ⟨"libfoo-1.rlib", .ok 0, false⟩ (by decide),
    C4_watch_once.2 ⟨false, ["deps"]⟩ ⟨false, []⟩
      [.ok ⟨.ok "libfoo-1.rlib", .ok 0⟩]
      ⟨⟨false, ["deps"]⟩, some ⟨false, ["deps"]⟩,
        [("foo", ⟨"libfoo-1.rlib", .ok 0, false⟩)]⟩
      "foo" ⟨"libfoo-1.rlib", .ok 0, false⟩ (by decide) (by decide)⟩

lemma scanEntries_panic (l : List (Except Unit DirEntry)) :
    ∀ m, Except.error () ∈ l → scanEntries m l = .panic := by
  induction l with
  | nil => intro m h; simp at h
  | cons hd tl ih =>
    intro m h
    cases hd with
    | error u => rfl
    | ok e =>
      have htl : Except.error () ∈ tl := by
        rcases List.mem_cons.mp h with h1 | h1
        · cases h1
        · exact h1
      simp only [scanEntries]
      cases hre : e.file_name with
      | error u => simp only [hre]; exact ih m htl
      | ok name =>
        simp only [hre]
        cases hp : parseLibName name with
        | none => simp only [hp]; exact ih m htl
        | some key => simp only [hp]; exact ih _ htl

/-- C9: `Recipients` construction returns a `RecipientsError` only for a
missing environment variable or an out_dir with fewer than three ancestors;
a failing directory enumeration, or a failing directory entry, makes
construction panic instead of returning an error value. -/
theorem C9_panic_on_scan_failure :
    (∀ (env : String → Option RPath)
        (dir : Except Unit (List (Except Unit DirEntry))) (e : RecipientsError),
        Recipients.new env dir = .error e →
          (∃ n, e = .EnvError n) ∨ (∃ p, e = .InvalidOutDir p))
    ∧ (∀ (deps md : RPath) (u : Unit),
        Recipients.with_path deps md (.error u) = .panic)
    ∧ (∀ (deps md : RPath) (l : List (Except Unit DirEntry)),
        Except.error () ∈ l → Recipients.with_path deps md (.ok l) = .panic) := by
  refine ⟨?_, ?_, ?_⟩
  · intro env dir e _
    cases e with
    | EnvError n => exact Or.inl ⟨n, rfl⟩
    | InvalidOutDir p => exact Or.inr ⟨p, rfl⟩
  · intro deps md u
    rfl
  · intro deps md l hmem
    rw [with_path_ok, scanEntries_panic l [] hmem]

/-- C9 witness: a missing `OUT_DIR` yields `EnvError`; a failing `read_dir`
and a failing directory entry both panic. -/
theorem C9_witness :
    ((∃ n, RecipientsError.EnvError "OUT_DIR" = .EnvError n) ∨
      (∃ p, RecipientsError.EnvError "OUT_DIR" = .InvalidOutDir p)) ∧
    Recipients.with_path ⟨false, ["deps"]⟩ ⟨false, []⟩ (.error ()) = .panic ∧
    Recipients.with_path ⟨false, ["deps"]⟩ ⟨false, []⟩ (.ok [.error ()]) = .panic := by
  refine ⟨C9_panic_on_scan_failure.1 (fun _ => none) (.ok []) (.EnvError "OUT_DIR")
      (by decide),
    C9_panic_on_scan_failure.2.1 ⟨false, ["deps"]⟩ ⟨false, []⟩ (),
    C9_panic_on_scan_failure.2.2 ⟨false, ["deps"]⟩ ⟨false, []⟩ [.error ()]
      (by decide)⟩

lemma withFileName_eq (p : RPath) (fn f : String) (h : p.fileName = some fn) :
    p.withFileName f = ⟨p.abs, p.comps.dropLast ++ [f]⟩ := by
  unfold RPath.withFileName
  rw [h]

lemma parent_of_fileName (p : RPath) (fn : String) (h : p.fileName = some fn) :
    p.parent = some ⟨p.abs, p.comps.dropLast⟩ := by
  unfold RPath.fileName at h
  unfold RPath.parent
  cases hc : p.comps with
  | nil => simp [hc] at h
  | cons c cs => rfl

lemma unpackEntries_clean (crate_name : String) (d : RPath)
    (l : List TarEntryData)
    (h : ∀ e ∈ l, e.readErr = false ∧ e.pathErr = false ∧ e.writeErr = false ∧
        e.path.fileName.isSome = true) :
    unpackEntries crate_name d l =
      (l.map (fun e =>
        ((if e.path.fileName = some DEFAULT_EXPORT then d
          else d.withFileName (e.path.fileName.getD "")), e.content)), none) := by
  induction l with
  | nil => rfl
  | cons e tl ih =>
    obtain ⟨hr, hp, hw, hf⟩ := h e (List.mem_cons_self _ _)
    obtain ⟨fn, hfn⟩ := Option.isSome_iff_exists.mp hf
    have htl := ih (fun x hx => h x (List.mem_cons_of_mem _ hx))
    simp only [unpackEntries, hr, hp, hfn, hw, htl, List.map_cons]
    simp [hfn]

/-- C1: extracting a fully readable archive onto a destination `d` that has a
file name routes the entry named `export.rlib` to exactly `d`, and every
other entry to `d`'s parent directory joined with that entry's own final
file-name component, discarding the directory components the entry carried. -/
theorem C1_unpack_routing (crate_name : String) (d : RPath)
    (entries : List TarEntryData)
    (hd : d.fileName.isSome = true)
    (hclean : ∀ e ∈ entries, e.readErr = false ∧ e.pathErr = false ∧
        e.writeErr = false ∧ e.path.fileName.isSome = true) :
    Depot.unpack crate_name (.archive entries) d =
      (entries.map (fun e =>
        ((if e.path.fileName = some DEFAULT_EXPORT then d
          else RPath.join ⟨d.abs, d.comps.dropLast⟩ [e.path.fileName.getD ""]),
         e.content)), none)
    ∧ d.parent = some ⟨d.abs, d.comps.dropLast⟩ := by
  obtain ⟨dfn, hdfn⟩ := Option.isSome_iff_exists.mp hd
  constructor
  · show unpackEntries crate_name d entries = _
    rw [unpackEntries_clean crate_name d entries hclean]
    have hmap : entries.map (fun e =>
        ((if e.path.fileName = some DEFAULT_EXPORT then d
          else d.withFileName (e.path.fileName.getD "")), e.content)) =
      entries.map (fun e =>
        ((if e.path.fileName = some DEFAULT_EXPORT then d
          else RPath.join ⟨d.abs, d.comps.dropLast⟩ [e.path.fileName.getD ""]),
         e.content)) := by
      refine List.map_congr_left ?_
      intro e _
      by_cases hex : e.path.fileName = some DEFAULT_EXPORT
      · simp [hex]
      · simp [hex, withFileName_eq d dfn _ hdfn, RPath.join]
    rw [hmap]
  · exact parent_of_fileName d dfn hdfn

/-- C1 witness: an archive with a nested dependency entry and the export
entry, extracted onto `deps/libfoo-1.rlib`. -/
theorem C1_witness :
    Depot.unpack "foo"
        (.archive
          [⟨false, false, ⟨false, ["nested", "libbytes-1.rlib"]⟩, "b1", false⟩,
           ⟨false, false, ⟨false, ["export.rlib"]⟩, "b2", false⟩])
        ⟨false, ["deps", "libfoo-1.rlib"]⟩ =
      ([(⟨false, ["deps", "libbytes-1.rlib"]⟩, "b1"),
        (⟨false, ["deps", "libfoo-1.rlib"]⟩, "b2")], none)
    ∧ (⟨false, ["deps", "libfoo-1.rlib"]⟩ : RPath).parent =
        some ⟨false, ["deps"]⟩ :=
  C1_unpack_routing "foo" ⟨false, ["deps", "libfoo-1.rlib"]⟩
    [⟨false, false, ⟨false, ["nested", "libbytes-1.rlib"]⟩, "b1", false⟩,
     ⟨false, false, ⟨false, ["export.rlib"]⟩, "b2", false⟩]
    (by decide) (by decide)

/-- C8: when an archive entry's stored path has no final file-name component,
unpacking fails with the missing-file-name error carrying the crate name and
the offending path, after performing only the writes of the entries preceding
it — the failing entry and all later entries are not extracted. -/
theorem C8_missing_file_name (crate_name : String) (d : RPath)
    (pre post : List TarEntryData) (bad : TarEntryData)
    (hpre : ∀ e ∈ pre, e.readErr = false ∧ e.pathErr = false ∧
        e.writeErr = false ∧ e.path.fileName.isSome = true)
    (hr : bad.readErr = false) (hp : bad.pathErr = false)
    (hfn : bad.path.fileName = none) :
    Depot.unpack crate_name (.archive (pre ++ bad :: post)) d =
      (pre.map (fun e =>
        ((if e.path.fileName = some DEFAULT_EXPORT then d
          else d.withFileName (e.path.fileName.getD "")), e.content)),
       some (.TarFileNameError crate_name bad.path)) := by
  show unpackEntries crate_name d (pre ++ bad :: post) = _
  induction pre with
  | nil =>
    simp only [List.nil_append, unpackEntries, hr, hp, hfn]
    simp
  | cons e tl ih =>
    obtain ⟨her, hep, hew, hef⟩ := hpre e (List.mem_cons_self _ _)
    obtain ⟨fn, hefn⟩ := Option.isSome_iff_exists.mp hef
    have htl := ih (fun x hx => hpre x (List.mem_cons_of_mem _ hx))
    simp only [List.cons_append, unpackEntries, her, hep, hefn, hew, htl,
      List.map_cons]
    simp [hefn, htl]

/-- C8 witness: an archive whose second entry has the empty path fails with
`TarFileNameError` after writing only the first entry; the third entry is not
extracted. -/
theorem C8_witness :
    Depot.unpack "foo"
        (.archive
          [⟨false, false, ⟨false, ["a.rlib"]⟩, "b1", false⟩,
           ⟨false, false, ⟨false, []⟩, "b2", false⟩,
           ⟨false, false, ⟨false, ["c.rlib"]⟩, "b3", false⟩])
        ⟨false, ["deps", "libfoo-1.rlib"]⟩ =
      ([(⟨false, ["deps", "a.rlib"]⟩, "b1")],
       some (.TarFileNameError "foo" ⟨false, []⟩)) :=
  C8_missing_file_name "foo" ⟨false, ["deps", "libfoo-1.rlib"]⟩
    [⟨false, false, ⟨false, ["a.rlib"]⟩, "b1", false⟩]
    [⟨false, false, ⟨false, ["c.rlib"]⟩, "b3", false⟩]
    ⟨false, false, ⟨false, []⟩, "b2", false⟩
    (by decide) (by decide) (by decide) (by decide)

lemma get_none (r : Recipients) (name : String)
    (h : lookupAddr r.addresses (normalize name) = none) :
    Recipients.get r name = (none, r, false) := by
  simp [Recipients.get, h]

lemma deliverLoop_cons (fs : FS) (r : Recipients) (name : String)
    (pkg : Package) (rest : List (String × Package)) :
    Depot.deliverLoop fs r ((name, pkg) :: rest) =
      match Recipients.get r name with
      | (none, r1, _) => ([], r1, .error (.MissingLibraryFile name))
      | (some dest, r1, _) =>
        match Depot.deliver_helper fs name pkg dest with
        | (ws, some e) => (ws, r1, .error e)
        | (ws, none) =>
          let (ws2, r2, res) := Depot.deliverLoop fs r1 rest
          (ws ++ ws2, r2, res) := rfl

lemma deliverLoop_append_ok (fs : FS) (l1 : List (String × Package)) :
    ∀ (r r' : Recipients) (ws : List (RPath × String))
      (l2 : List (String × Package)),
      Depot.deliverLoop fs r l1 = (ws, r', .ok ()) →
      Depot.deliverLoop fs r (l1 ++ l2) =
        (ws ++ (Depot.deliverLoop fs r' l2).1,
         (Depot.deliverLoop fs r' l2).2.1,
         (Depot.deliverLoop fs r' l2).2.2) := by
  induction l1 with
  | nil =>
    intro r r' ws l2 h
    simp only [Depot.deliverLoop] at h
    obtain ⟨h1, h2, -⟩ : [] = ws ∧ r = r' ∧ True := by
      simpa [Prod.ext_iff] using h
    subst h1
    subst h2
    simp only [List.nil_append]
  | cons hd tl ih =>
    obtain ⟨name, pkg⟩ := hd
    intro r r' ws l2 h
    rw [deliverLoop_cons] at h
    rcases hget : Recipients.get r name with ⟨o, r1, fired⟩
    cases o with
    | none =>
      simp only [hget] at h
      simp at h
    | some dest =>
      simp only [hget] at h
      rcases hhelp : Depot.deliver_helper fs name pkg dest with ⟨ws1, oe⟩
      cases oe with
      | some e =>
        simp only [hhelp] at h
        simp at h
      | none =>
        simp only [hhelp] at h
        rcases hdl : Depot.deliverLoop fs r1 tl with ⟨ws2, r2, res⟩
        simp only [hdl] at h
        obtain ⟨hw, hr2, hres⟩ : ws1 ++ ws2 = ws ∧ r2 = r' ∧ res = .ok () := by
          simpa [Prod.ext_iff] using h
        subst hw
        subst hr2
        subst hres
        have hstep := ih r1 r2 ws2 l2 hdl
        simp only [List.cons_append, deliverLoop_cons, hget, hhelp, hstep]
        simp [List.append_assoc]

/-- C3: when every package before position `k` delivers successfully and the
crate name at position `k` has no destination, `deliver` returns the fatal
`MissingLibraryFile` error carrying that crate name, performs no transfer for
that package or any later one, and keeps the writes of the packages already
processed. -/
theorem C3_missing_library_aborts (fs : FS) (r r' : Recipients)
    (pre post : List (String × Package)) (name : String) (p : Package)
    (ws : List (RPath × String))
    (h1 : Depot.deliver fs r ⟨pre⟩ = (ws, r', .ok ()))
    (h2 : lookupAddr r'.addresses (normalize name) = none) :
    Depot.deliver fs r ⟨pre ++ (name, p) :: post⟩ =
      (ws, r', .error (.MissingLibraryFile name)) := by
  unfold Depot.deliver at h1 ⊢
  rw [deliverLoop_append_ok fs pre r r' ws ((name, p) :: post) h1]
  rw [deliverLoop_cons, get_none r' name h2]
  simp

/-- C3 witness: a two-package map whose first package delivers and whose
second crate name resolves to nothing aborts with `MissingLibraryFile`,
keeping the first package's write. -/
theorem C3_witness :
    Depot.deliver
        (fun src => if src = ⟨false, ["src", "a.tar.gz"]⟩ then
          some (.archive [⟨false, false, ⟨false, ["export.rlib"]⟩, "x", false⟩])
        else none)
        ⟨⟨false, ["deps"]⟩, none,
         [("dhltest", ⟨"libdhltest-1.rlib", .ok 0, false⟩)]⟩
        ⟨[("dhltest", ⟨none, .file ⟨⟨false, ["src", "a.tar.gz"]⟩⟩⟩),
          ("missing", ⟨none, .file ⟨⟨false, ["nope"]⟩⟩⟩)]⟩ =
      ([(⟨false, ["deps", "libdhltest-1.rlib"]⟩, "x")],
       ⟨⟨false, ["deps"]⟩, none,
        [("dhltest", ⟨"libdhltest-1.rlib", .ok 0, true⟩)]⟩,
       .error (.MissingLibraryFile "missing")) :=
  C3_missing_library_aborts
    (fun src => if src = ⟨false, ["src", "a.tar.gz"]⟩ then
      some (.archive [⟨false, false, ⟨false, ["export.rlib"]⟩, "x", false⟩])
    else none)
    ⟨⟨false, ["deps"]⟩, none,
     [("dhltest", ⟨"libdhltest-1.rlib", .ok 0, false⟩)]⟩
    ⟨⟨false, ["deps"]⟩, none,
     [("dhltest", ⟨"libdhltest-1.rlib", .ok 0, true⟩)]⟩
    [("dhltest", ⟨none, .file ⟨⟨false, ["src", "a.tar.gz"]⟩⟩⟩)]
    []
    "missing" ⟨none, .file ⟨⟨false, ["nope"]⟩⟩⟩
    [(⟨false, ["deps", "libdhltest-1.rlib"]⟩, "x")]
    (by decide) (by decide)

lemma afterFirst_of_first_occ (sep : List Char) (hsep : sep ≠ []) :
    ∀ pre rest : List Char,
      (∀ i, i < pre.length →
        sep.isPrefixOf ((pre ++ (sep ++ rest)).drop i) = false) →
      afterFirst sep (pre ++ (sep ++ rest)) = some rest := by
  intro pre
  induction pre with
  | nil =>
    intro rest _
    cases sep with
    | nil => exact absurd rfl hsep
    | cons c cs =>
      have hpre : (c :: cs).isPrefixOf (c :: (cs ++ rest)) = true :=
        List.isPrefixOf_iff_prefix.mpr ⟨rest, by simp⟩
      simp only [List.nil_append, List.cons_append, afterFirst, hpre, if_true]
      simp [List.drop_left]
  | cons x pre ih =>
    intro rest hfirst
    have h0 := hfirst 0 (by simp)
    simp only [List.drop_zero] at h0
    have hrec : ∀ i, i < pre.length →
        sep.isPrefixOf ((pre ++ (sep ++ rest)).drop i) = false := by
      intro i hi
      have := hfirst (i + 1) (by simp; omega)
      simpa using this
    simp only [List.cons_append, afterFirst]
    rw [if_neg]
    · exact ih rest hrec
    · simp only [List.cons_append] at h0
      simp [h0]

lemma afterFirst_none_of_not_hasSub (sep : List Char) :
    ∀ l : List Char, hasSub sep l = false → afterFirst sep l = none := by
  intro l
  induction l with
  | nil => intro _; rfl
  | cons c cs ih =>
    intro h
    simp only [hasSub, Bool.or_eq_false_iff] at h
    obtain ⟨h1, h2⟩ := h
    simp only [afterFirst, h1]
    simpa using ih h2

/-- C7 (amended): construction indexes a directory entry iff its name is
valid text and contains `"lib"` as a substring (not necessarily as a prefix:
the name is split after the first occurrence of `"lib"`) and the remainder
after that occurrence ends with `".rlib"`; the index key is the remainder's
prefix before its first `-`, or the whole remainder, extension included, when
no `-` occurs.  Entries that are not valid text, contain no `"lib"`, or whose
remainder does not end in `".rlib"` are silently skipped and contribute no
address. -/
theorem C7_index_filter :
    (∀ (s : String) (pre rest : List Char),
        s.data = pre ++ ("lib".data ++ rest) →
        (∀ i, i < pre.length → "lib".data.isPrefixOf (s.data.drop i) = false) →
        parseLibName s =
          (if ".rlib".data.isSuffixOf rest then
            some ⟨rest.takeWhile (fun c => c ≠ '-')⟩
          else none))
    ∧ (∀ s : String, hasSub "lib".data s.data = false → parseLibName s = none)
    ∧ (∀ (deps md : RPath) (meta : Except Unit Nat) (nm : String),
        Recipients.with_path deps md (.ok [.ok ⟨.ok nm, meta⟩]) =
          .ok ⟨deps, deps.stripPrefix md,
            match parseLibName nm with
            | none => []
            | some k => [(k, ⟨nm, meta, false⟩)]⟩
        ∧ Recipients.with_path deps md (.ok [.ok ⟨.error (), meta⟩]) =
          .ok ⟨deps, deps.stripPrefix md, []⟩) := by
  refine ⟨?_, ?_, ?_⟩
  · intro s pre rest hs hfirst
    have ha := afterFirst_of_first_occ "lib".data (by decide) pre rest
      (by intro i hi; have := hfirst i hi; rwa [hs] at this)
    unfold parseLibName
    rw [hs, ha]
  · intro s h
    unfold parseLibName
    rw [afterFirst_none_of_not_hasSub "lib".data s.data h]
  · intro deps md meta nm
    refine ⟨?_, rfl⟩
    rw [with_path_ok]
    cases hp : parseLibName nm with
    | none => simp [scanEntries, hp]
    | some k => simp [scanEntries, hp, insertAddr, lookupAddr]

/-- C7 witness: `zlibbar-1.rlib` is indexed under `bar` (the name's `lib` is
not a prefix); `nothing.so` contains no `lib` and is skipped; a single-entry
scan indexes `libfoo-1.rlib` under `foo` and skips a non-text name. -/
theorem C7_witness :
    parseLibName "zlibbar-1.rlib" =
      (if ".rlib".data.isSuffixOf "bar-1.rlib".data then
        some ⟨"bar-1.rlib".data.takeWhile (fun c => c ≠ '-')⟩
      else none) ∧
    parseLibName "nothing.so" = none ∧
    (Recipients.with_path ⟨false, ["deps"]⟩ ⟨false, []⟩
        (.ok [.ok ⟨.ok "libfoo-1.rlib", .ok 3⟩]) =
      .ok ⟨⟨false, ["deps"]⟩, (⟨false, ["deps"]⟩ : RPath).stripPrefix ⟨false, []⟩,
        match parseLibName "libfoo-1.rlib" with
        | none => []
        | some k => [(k, ⟨"libfoo-1.rlib", .ok 3, false⟩)]⟩
      ∧ Recipients.with_path ⟨false, ["deps"]⟩ ⟨false, []⟩
          (.ok [.ok ⟨.error (), .ok 3⟩]) =
        .ok ⟨⟨false, ["deps"]⟩, (⟨false, ["deps"]⟩ : RPath).stripPrefix ⟨false, []⟩, []⟩) :=
  ⟨C7_index_filter.1 "zlibbar-1.rlib" "z".data "bar-1.rlib".data (by decide)
      (by decide),
    C7_index_filter.2.1 "nothing.so" (by decide),
    C7_index_filter.2.2 ⟨false, ["deps"]⟩ ⟨false, []⟩ (.ok 3) "libfoo-1.rlib"⟩

/-- C7 counterexample: the claim says an entry lacking the `-` marker, or
lacking the `lib` prefix, is silently skipped; the code indexes
`libfoo.rlib` under the key `foo.rlib` and `xlibbar-1.rlib` under `bar`. -/
theorem C7_counterexample :
    parseLibName "libfoo.rlib" = some "foo.rlib" ∧
    parseLibName "xlibbar-1.rlib" = some "bar" ∧
    Recipients.with_path ⟨false, ["deps"]⟩ ⟨true, []⟩
        (.ok [.ok ⟨.ok "libfoo.rlib", .ok 0⟩]) =
      .ok ⟨⟨false, ["deps"]⟩, none,
        [("foo.rlib", ⟨"libfoo.rlib", .ok 0, false⟩)]⟩ :=
  ⟨rfl, rfl, rfl⟩

end DHL
